import Mathlib

/-!
Verification of the entr file-watcher (entr.c and the Linux compatibility
shim missing/kqueue_inotify.c) against its natural-language specification.

The C sources are shallowly embedded: each C function that a claim touches
is translated to an executable Lean definition, with the process environment
(results of open(2), the inotify read channel, poll readiness) supplied as
explicit oracle parameters.  Machine integers fit comfortably in Int/Nat here
(file descriptors, flag bitsets below 2^32), so no overflow modelling is
required.
-/

namespace Entr

/-! ## Flag constants

Numeric values are the BSD kqueue and Linux inotify constants used by the
sources (sys/event.h, sys/inotify.h). -/

def NOTE_DELETE : Nat := 0x0001
def NOTE_WRITE  : Nat := 0x0002
def NOTE_EXTEND : Nat := 0x0004
def NOTE_ATTRIB : Nat := 0x0008
def NOTE_RENAME : Nat := 0x0020

def IN_MODIFY      : Nat := 0x0002
def IN_ATTRIB      : Nat := 0x0004
def IN_CLOSE_WRITE : Nat := 0x0008
def IN_MOVE_SELF   : Nat := 0x0800
def IN_CREATE      : Nat := 0x0100
def IN_DELETE_SELF : Nat := 0x0400

/-! ## WatchFile registry

`struct watch_file { char *fn; int fd; }` (entr.c lines 36-40).  The registry
is the NULL-terminated array `WatchFile **files`, embedded as a list.  The
handle `fd` is an `Int` because the sources use -1 as the invalid sentinel
(kqueue_inotify.c line 105). -/

structure WatchFile where
  fn : String
  fd : Int
deriving Repr, DecidableEq

/-- Translation of file_by_descriptor (kqueue_inotify.c lines 43-52): linear
scan of the registry, returning the first entry whose stored handle equals
the queried watch descriptor.  The C function returns a pointer to the entry;
we return its index, which identifies the entry uniquely. -/
def file_by_descriptor (files : List WatchFile) (wd : Int) : Option Nat :=
  files.findIdx? (fun f => f.fd == wd)

/-- Helper used to express the registry mutations the shim performs through
the udata pointer: replace the handle stored at index `i`. -/
def setHandle : List WatchFile → Nat → Int → List WatchFile
  | [], _, _ => []
  | f :: fs, 0, v => ⟨f.fn, v⟩ :: fs
  | f :: fs, i + 1, v => f :: setHandle fs i v

/-- Translation of the EV_DELETE branch of the shim's registration path
(kqueue_inotify.c lines 103-106): after inotify_rm_watch, the stored handle
is overwritten with the sentinel -1 (file->fd = -1). -/
def invalidateHandle (files : List WatchFile) (i : Nat) : List WatchFile :=
  setHandle files i (-1)

/-- Translation of the EV_ADD branch of the shim's registration path
(kqueue_inotify.c lines 107-114): the previous plain descriptor is closed and
the stored handle is replaced with the watch descriptor returned by
inotify_add_watch. -/
def replaceHandle (files : List WatchFile) (i : Nat) (wd : Int) : List WatchFile :=
  setHandle files i wd

/-! ## Unified events -/

inductive KFilter where
  | vnode
  | read
deriving Repr, DecidableEq

/-- Embedding of `struct kevent` as filled in by the sources.  `udata` holds
the index of the tagged registry entry, or none for the NULL tag. -/
structure KEvent where
  ident  : Int
  filter : KFilter
  fflags : Nat
  udata  : Option Nat
deriving Repr, DecidableEq

/-! ## Compatibility shim: the wait path of kevent (kqueue_inotify.c 121-178)

A raw inotify record is `{ wd, mask }`; the record length field only steers
pointer arithmetic in C and has no observable effect in the list embedding. -/

structure RawRecord where
  wd   : Int
  mask : Nat
deriving Repr, DecidableEq

/-- Translation of the mask-conversion block (kqueue_inotify.c lines 140-146):
each recognised inotify bit contributes its kqueue NOTE_ flag. -/
def translateMask (mask : Nat) : Nat :=
  (if mask &&& IN_DELETE_SELF != 0 then NOTE_DELETE else 0) |||
  (if mask &&& IN_CLOSE_WRITE != 0 then NOTE_WRITE else 0) |||
  (if mask &&& IN_CREATE != 0 then NOTE_WRITE else 0) |||
  (if mask &&& IN_MOVE_SELF != 0 then NOTE_RENAME else 0) |||
  (if mask &&& IN_ATTRIB != 0 then NOTE_ATTRIB else 0)

/-- Event appended when the secondary input stream (STDIN, fd 0) is ready
(kqueue_inotify.c lines 163-172): filter EVFILT_READ, zero fflags, NULL
udata. -/
def readReadyEvent : KEvent := ⟨0, KFilter.read, 0, none⟩

/-- Translation of the merge test of kqueue_inotify.c lines 149-151: when
the last produced event of the batch has the same watch identifier as the
current record, n is decremented and the flag sets are OR-ed; otherwise the
eventlist and the record's own flags are used unchanged. -/
def mergeStep (acc : List KEvent) (wd : Int) (ff : Nat) : List KEvent × Nat :=
  match acc.getLast? with
  | some prev =>
    if prev.ident == wd then (acc.dropLast, ff ||| prev.fflags) else (acc, ff)
  | none => (acc, ff)

/-- Translation of the record-processing loop (kqueue_inotify.c lines
136-161).  `acc` is the eventlist filled so far (its length is the C
counter n), `nevents` the caller's buffer capacity.  A record is dropped if
its translated flag set is empty; it is merged into the immediately
preceding produced event when that event has the same watch identifier;
the rebuilt event is kept only if the registry lookup for its watch
descriptor succeeds. -/
def processRecords (files : List WatchFile) (nevents : Nat) :
    List RawRecord → List KEvent → List KEvent
  | [], acc => acc
  | rec :: rest, acc =>
    if nevents ≤ acc.length then acc
    else
      let ff := translateMask rec.mask
      if ff = 0 then processRecords files nevents rest acc
      else
        let m := mergeStep acc rec.wd ff
        match file_by_descriptor files rec.wd with
        | some i =>
          processRecords files nevents rest
            (m.1 ++ [⟨rec.wd, KFilter.vnode, m.2, some i⟩])
        | none => processRecords files nevents rest m.1

/-- Result of one read(2) on the inotify descriptor: either interrupted by a
signal (errno EINTR, kqueue_inotify.c lines 129-132) or a batch of raw
records. -/
inductive ReadRes where
  | eintr
  | ok (recs : List RawRecord)
deriving Repr, DecidableEq

/-- One round of the shim's poll loop: the POLLIN readiness bits of the
inotify descriptor (pfd[0]) and of STDIN (pfd[1]), plus the outcome of the
read performed when the inotify descriptor is ready. -/
structure Round where
  inReady    : Bool
  stdinReady : Bool
  readRes    : ReadRes
deriving Repr, DecidableEq

/-- Translation of the collecting do-while loop of the shim's wait path
(kqueue_inotify.c lines 124-175).  The oracle `rounds` lists the successive
poll outcomes; an empty list means poll returned no ready descriptor, which
exits the loop.  On EINTR the C `continue` jumps straight to the loop's
poll condition, skipping the STDIN check of that round; when STDIN is ready
exactly one readReadyEvent is appended and `break` leaves the loop. -/
def keventWait (files : List WatchFile) (nevents : Nat) :
    List Round → List KEvent → List KEvent
  | [], acc => acc
  | r :: rest, acc =>
    if r.inReady then
      match r.readRes with
      | ReadRes.eintr => keventWait files nevents rest acc
      | ReadRes.ok recs =>
        let acc' := processRecords files nevents recs acc
        if r.stdinReady then acc' ++ [readReadyEvent]
        else keventWait files nevents rest acc'
    else if r.stdinReady then acc ++ [readReadyEvent]
    else keventWait files nevents rest acc

/-- Entry point of the wait path: the caller's eventlist starts empty. -/
def kevent_wait (files : List WatchFile) (nevents : Nat)
    (rounds : List Round) : List KEvent :=
  keventWait files nevents rounds []

/-! ## watch_file (entr.c lines 181-200)

The open(2) results are an oracle `opens : Nat → Int` indexed by a cursor
counting the open calls made so far; -1 is a failed open.  The retry loop
runs at most 20 iterations, sleeping 100000 microseconds after each failed
attempt and breaking on the first success. -/

inductive WItem where
  | attempted (res : Int)
  | sleptUs (us : Nat)
deriving Repr, DecidableEq

/-- Trace of the retry loop `for (i=0; i<20; i++)` of watch_file: open calls
interleaved with the usleep(100000) performed after each failure. -/
def openTrace (opens : Nat → Int) : Nat → Nat → List WItem
  | _, 0 => []
  | idx, fuel + 1 =>
    let fd := opens idx
    if fd = -1 then WItem.attempted fd :: WItem.sleptUs 100000 ::
      openTrace opens (idx + 1) fuel
    else [WItem.attempted fd]

/-- Value left in file->fd when the retry loop of watch_file exits: the first
successful open result, or -1 if every attempt failed. -/
def openResult (opens : Nat → Int) : Nat → Nat → Int
  | _, 0 => -1
  | idx, fuel + 1 =>
    let fd := opens idx
    if fd = -1 then openResult opens (idx + 1) fuel else fd

/-- Number of open(2) calls the retry loop makes before exiting. -/
def openUsed (opens : Nat → Int) : Nat → Nat → Nat
  | _, 0 => 0
  | idx, fuel + 1 =>
    let fd := opens idx
    if fd = -1 then openUsed opens (idx + 1) fuel + 1 else 1

/-- Outcome of err(3): the process terminates at once with the given exit
status after printing the message to stderr. -/
structure Fatal where
  code : Nat
  msg  : String
deriving Repr, DecidableEq

/-- Translation of watch_file (entr.c lines 181-200) restricted to its
observable outcome: the new descriptor on success, or the err(errno, ...)
abrupt termination when all 20 attempts fail, whose message names the path
(the C format is: cannot open the quoted path).  `errnoVal` is the errno
left by the last failed open.  The subsequent EV_SET/kevent registration
does not modify file->fd and its failure branch is environment-specific
(it compares strerror output); it is outside the claims and not modelled. -/
def watch_file (opens : Nat → Int) (idx : Nat) (errnoVal : Nat)
    (fn : String) : Except Fatal Int :=
  let fd := openResult opens idx 20
  if fd = -1 then Except.error ⟨errnoVal, "cannot open " ++ fn⟩
  else Except.ok fd

/-! ## Dispatch loop (entr.c lines 211-249)

One pass of watch_loop over a returned batch.  The observable steps are
recorded as actions; the FIFO writes record the exact bytes passed to
write(2), as character codes. -/

inductive EAction where
  | runScript
  | drainCall
  | closedFd (fd : Int)
  | reRegistered (fd : Int)
  | fifoWrote (bytes : List Nat)
  | fsyncFifo
deriving Repr, DecidableEq

/-- World state threaded through a dispatch pass: the registry, the open(2)
oracle with its cursor, the errno for failed opens, and the batches returned
by the post-invocation drain calls (kevent with the near-zero timeout),
consumed in order; an exhausted list means the drain returns no events. -/
structure World where
  files   : List WatchFile
  opens   : Nat → Int
  openIdx : Nat
  errno   : Nat
  drains  : List (List KEvent)

/-- Qualifying test of entr.c lines 235-236: NOTE_DELETE, NOTE_WRITE or
NOTE_EXTEND set. -/
def qualifies (fflags : Nat) : Bool :=
  (fflags &&& NOTE_DELETE != 0) || (fflags &&& NOTE_WRITE != 0) ||
    (fflags &&& NOTE_EXTEND != 0)

/-- Bytes written for one qualifying event in FIFO mode (entr.c lines
242-246): write(fifo.fd, file->fn, strlen(file->fn)) emits the path's
bytes, and write(fifo.fd, a one-character newline string literal, 2) emits
two bytes, the newline and the string's terminating NUL. -/
def fifoBytesPath (fn : String) : List Nat := fn.toList.map Char.toNat

def fifoNewlineWrite : List Nat := [10, 0]

/-- Pop the next drain result (command mode only). -/
def popDrain (w : World) : List KEvent × World :=
  match w.drains with
  | [] => ([], w)
  | d :: ds => (d, ⟨w.files, w.opens, w.openIdx, w.errno, ds⟩)

/-- Translation of the loop body of watch_loop (entr.c lines 228-247) for a
single event.  The body first handles NOTE_DELETE (close the stale
descriptor, re-register via watch_file, mutating file->fd through the udata
pointer), then performs the delivery check on the same event.  The file
pointed to by udata is dereferenced only in the DELETE branch and in the
FIFO write; a NULL udata there would fault in C, but the only NULL-tagged
event this program ever receives is the shim's READ_READY event, whose
fflags are 0, so the embedding renders those dereference sites as no-ops.
Returns the recorded actions, the updated world, and the drain batch when a
drain call was issued (its events overwrite the front of the caller's
eventlist). -/
def processEvent (fifoFd : Nat) (w : World) (ev : KEvent) :
    Except Fatal (List EAction × World × Option (List KEvent)) :=
  let fo := ev.udata.bind (fun fi => (w.files.get? fi).map (fun f => (fi, f)))
  let del : Except Fatal (List EAction × World) :=
    if ev.fflags &&& NOTE_DELETE != 0 then
      match fo with
      | some (fi, f) =>
        -- close(file->fd), then watch_file(kq, file): re-open and re-register
        let fd' := openResult w.opens w.openIdx 20
        let used := openUsed w.opens w.openIdx 20
        if fd' = -1 then Except.error ⟨w.errno, "cannot open " ++ f.fn⟩
        else
          Except.ok ([EAction.closedFd f.fd, EAction.reRegistered fd'],
            ⟨setHandle w.files fi fd', w.opens, w.openIdx + used, w.errno, w.drains⟩)
      | none => Except.ok ([], w)
    else Except.ok ([], w)
  match del with
  | Except.error e => Except.error e
  | Except.ok (pre, w1) =>
    if qualifies ev.fflags then
      if fifoFd = 0 then
        let (d, w2) := popDrain w1
        Except.ok (pre ++ [EAction.runScript, EAction.drainCall], w2, some d)
      else
        match fo with
        | some (_, f) =>
          Except.ok (pre ++ [EAction.fifoWrote (fifoBytesPath f.fn),
            EAction.fifoWrote fifoNewlineWrite, EAction.fsyncFifo], w1, none)
        | none => Except.ok (pre, w1, none)
    else Except.ok (pre, w1, none)

/-- Default kevent struct for reads past the filled part of the eventlist
(never taken by the loop, which stops at nev). -/
def dummyEv : KEvent := ⟨0, KFilter.vnode, 0, none⟩

/-- New front of the eventlist after a drain call returns `d` events into
it: the first d.length slots are overwritten, the rest keep their contents. -/
def overwriteFront (l d : List KEvent) : List KEvent := d ++ l.drop d.length

/-- Translation of the `for (i=0; i<nev; i++)` loop of watch_loop (entr.c
lines 223-248).  `fuel` counts the remaining iterations (nev - i); the
eventlist is re-read at each index because the drain call issued after a
command invocation stores its returned events into the same array. -/
def dispatchAux (fifoFd : Nat) :
    Nat → Nat → List KEvent → World → Except Fatal (List EAction × World)
  | 0, _, _, w => Except.ok ([], w)
  | fuel + 1, i, evList, w =>
    match processEvent fifoFd w (evList.getD i dummyEv) with
    | Except.error e => Except.error e
    | Except.ok (acts, w', dOpt) =>
      let evList' :=
        match dOpt with
        | none => evList
        | some d => overwriteFront evList d
      match dispatchAux fifoFd fuel (i + 1) evList' w' with
      | Except.error e => Except.error e
      | Except.ok (acts2, w2) => Except.ok (acts ++ acts2, w2)

/-- One full dispatch pass over a batch of nev = evList.length events. -/
def dispatchBatch (fifoFd : Nat) (evList : List KEvent) (w : World) :
    Except Fatal (List EAction × World) :=
  dispatchAux fifoFd evList.length 0 evList w

/-- Actions of a dispatch outcome (empty when the pass aborted fatally). -/
def actionsOf : Except Fatal (List EAction × World) → List EAction
  | Except.error _ => []
  | Except.ok (acts, _) => acts

/-- Number of command invocations recorded in an action list. -/
def countRunScript (acts : List EAction) : Nat :=
  acts.countP (fun a => a == EAction.runScript)

/-! ## Concrete example inputs used by witnesses and counterexamples -/

/-- Batch of three NOTE_WRITE events for three different files. -/
def batch3 : List KEvent :=
  [⟨3, KFilter.vnode, NOTE_WRITE, some 0⟩, ⟨4, KFilter.vnode, NOTE_WRITE, some 1⟩,
   ⟨5, KFilter.vnode, NOTE_WRITE, some 2⟩]

/-- Registry of three files with distinct valid handles. -/
def files3 : List WatchFile := [⟨"a.txt", 3⟩, ⟨"b.txt", 4⟩, ⟨"c.txt", 5⟩]

/-- Command-mode world for the three-file registry; every open fails, no
drain results (drain calls return no events). -/
def world3 : World := ⟨files3, fun _ => -1, 0, 2, []⟩

/-- World holding one file with handle 5 whose re-open returns the same
numeric descriptor 5, as POSIX open(2) does after closing the lowest
numbered descriptor. -/
def worldSameFd : World := ⟨[⟨"a.txt", 5⟩], fun _ => 5, 0, 2, []⟩

/-- NOTE_DELETE event for the single file of worldSameFd. -/
def evDelete : KEvent := ⟨5, KFilter.vnode, NOTE_DELETE, some 0⟩

/-- World like worldSameFd except the re-open returns a fresh descriptor 9. -/
def worldNewFd : World := ⟨[⟨"a.txt", 5⟩], fun _ => 9, 0, 2, []⟩

/-- Actions of a processEvent outcome (empty when it aborted fatally). -/
def peActs : Except Fatal (List EAction × World × Option (List KEvent)) → List EAction
  | Except.error _ => []
  | Except.ok (acts, _, _) => acts

/-- Registry left by a processEvent outcome (empty when it aborted). -/
def peFiles : Except Fatal (List EAction × World × Option (List KEvent)) → List WatchFile
  | Except.error _ => []
  | Except.ok (_, w, _) => w.files

/-- Number of open attempts recorded in a watch_file trace. -/
def countAttempts (tr : List WItem) : Nat :=
  tr.countP (fun it => match it with | WItem.attempted _ => true | _ => false)

/-- Checks that consecutive open attempts in a watch_file trace are
separated by exactly one 100000-microsecond sleep. -/
def wellSpaced : List WItem → Bool
  | [] => true
  | [WItem.attempted _] => true
  | WItem.attempted _ :: WItem.sleptUs 100000 :: rest => wellSpaced rest
  | _ => false

end Entr

namespace Entr

/-! ## Helper lemmas -/

theorem file_by_descriptor_nil (wd : Int) :
    file_by_descriptor [] wd = none := by
  simp [file_by_descriptor]

theorem file_by_descriptor_cons (f0 : WatchFile) (fs : List WatchFile)
    (wd : Int) :
    file_by_descriptor (f0 :: fs) wd =
      if f0.fd == wd then some 0
      else (file_by_descriptor fs wd).map (· + 1) := by
  simp [file_by_descriptor, List.findIdx?_cons]

theorem file_by_descriptor_some (files : List WatchFile) (wd : Int) (i : Nat)
    (h : file_by_descriptor files wd = some i) :
    ∃ f, files.get? i = some f ∧ f.fd = wd := by
  induction files generalizing i with
  | nil => rw [file_by_descriptor_nil] at h; exact absurd h (by simp)
  | cons f0 fs ih =>
    rw [file_by_descriptor_cons] at h
    by_cases h0 : f0.fd == wd
    · rw [if_pos h0] at h
      obtain rfl : i = 0 := (Option.some.inj h).symm
      exact ⟨f0, rfl, by simpa using h0⟩
    · rw [if_neg h0] at h
      obtain ⟨i', hi', rfl⟩ := Option.map_eq_some'.mp h
      obtain ⟨f, hf, hfd⟩ := ih i' hi'
      exact ⟨f, hf, hfd⟩

theorem file_by_descriptor_first (files : List WatchFile) (wd : Int) :
    ∀ i f, files.get? i = some f → f.fd = wd →
      (∀ j g, j < i → files.get? j = some g → g.fd ≠ wd) →
      file_by_descriptor files wd = some i := by
  induction files with
  | nil => intro i f hget _ _; simp at hget
  | cons f0 fs ih =>
    intro i f hget hfd hmin
    cases i with
    | zero =>
      obtain rfl : f0 = f := by simpa using hget
      rw [file_by_descriptor_cons, if_pos (by simpa using hfd)]
    | succ i =>
      have h0 : f0.fd ≠ wd := hmin 0 f0 (Nat.succ_pos i) (by simp)
      rw [file_by_descriptor_cons, if_neg (by simpa using h0)]
      rw [ih i f (by simpa using hget) hfd
        (fun j g hj hg => hmin (j + 1) g (Nat.succ_lt_succ hj) (by simpa using hg))]
      rfl

theorem file_by_descriptor_none (files : List WatchFile) (wd : Int)
    (h : ∀ f ∈ files, f.fd ≠ wd) : file_by_descriptor files wd = none := by
  induction files with
  | nil => exact file_by_descriptor_nil wd
  | cons f0 fs ih =>
    rw [file_by_descriptor_cons,
      if_neg (by simpa using h f0 (List.mem_cons_self f0 fs))]
    rw [ih (fun f hf => h f (List.mem_cons_of_mem f0 hf))]
    rfl

theorem mergeStep_eq_none (acc : List KEvent) (wd : Int) (ff : Nat)
    (h : acc.getLast? = none) : mergeStep acc wd ff = (acc, ff) := by
  unfold mergeStep; rw [h]

theorem mergeStep_eq_some (acc : List KEvent) (wd : Int) (ff : Nat)
    (prev : KEvent) (h : acc.getLast? = some prev) :
    mergeStep acc wd ff =
      if prev.ident == wd then (acc.dropLast, ff ||| prev.fflags)
      else (acc, ff) := by
  unfold mergeStep; rw [h]

theorem mergeStep_fst_subset (acc : List KEvent) (wd : Int) (ff : Nat) :
    ∀ e ∈ (mergeStep acc wd ff).1, e ∈ acc := by
  cases hl : acc.getLast? with
  | none => rw [mergeStep_eq_none acc wd ff hl]; exact fun e he => he
  | some prev =>
    rw [mergeStep_eq_some acc wd ff prev hl]
    by_cases hid : prev.ident == wd
    · rw [if_pos hid]
      exact fun e he => List.dropLast_subset acc he
    · rw [if_neg hid]
      exact fun e he => he

theorem mergeStep_snd (acc : List KEvent) (wd : Int) (ff : Nat) :
    ∃ x, (mergeStep acc wd ff).2 = ff ||| x := by
  cases hl : acc.getLast? with
  | none => rw [mergeStep_eq_none acc wd ff hl]; exact ⟨0, by simp⟩
  | some prev =>
    rw [mergeStep_eq_some acc wd ff prev hl]
    by_cases hid : prev.ident == wd
    · rw [if_pos hid]; exact ⟨prev.fflags, rfl⟩
    · rw [if_neg hid]; exact ⟨0, by simp⟩

/-- Every event processRecords adds to the eventlist has the shape built at
kqueue_inotify.c lines 153-158; any property of that shape that also holds
of the initial eventlist holds of the result. -/
theorem processRecords_inv (P : KEvent → Prop) (files : List WatchFile)
    (nevents : Nat)
    (hP : ∀ wd mask x i, translateMask mask ≠ 0 →
      file_by_descriptor files wd = some i →
      P ⟨wd, KFilter.vnode, translateMask mask ||| x, some i⟩) :
    ∀ recs acc, (∀ e ∈ acc, P e) →
      ∀ e ∈ processRecords files nevents recs acc, P e := by
  intro recs
  induction recs with
  | nil => intro acc hacc; simpa [processRecords] using hacc
  | cons rec rest ih =>
    intro acc hacc
    by_cases hcap : nevents ≤ acc.length
    · simpa [processRecords, hcap] using hacc
    · by_cases hff : translateMask rec.mask = 0
      · simpa [processRecords, hcap, hff] using ih acc hacc
      · have hm := mergeStep_fst_subset acc rec.wd (translateMask rec.mask)
        cases hfb : file_by_descriptor files rec.wd with
        | none =>
          simpa [processRecords, hcap, hff, hfb] using
            ih _ (fun e he => hacc e (hm e he))
        | some i =>
          obtain ⟨x, hx⟩ := mergeStep_snd acc rec.wd (translateMask rec.mask)
          have hnew : ∀ e ∈ (mergeStep acc rec.wd (translateMask rec.mask)).1 ++
              [⟨rec.wd, KFilter.vnode,
                (mergeStep acc rec.wd (translateMask rec.mask)).2, some i⟩], P e := by
            intro e he
            rcases List.mem_append.mp he with he | he
            · exact hacc e (hm e he)
            · rw [List.mem_singleton.mp he, hx]
              exact hP rec.wd rec.mask x i hff hfb
          simpa [processRecords, hcap, hff, hfb] using ih _ hnew

/-- Invariant carried through the collecting loop of the shim's wait path:
a property preserved by processRecords insertions and satisfied by the
READ_READY event holds of every returned event. -/
theorem keventWait_inv (P : KEvent → Prop) (files : List WatchFile)
    (nevents : Nat)
    (hP : ∀ wd mask x i, translateMask mask ≠ 0 →
      file_by_descriptor files wd = some i →
      P ⟨wd, KFilter.vnode, translateMask mask ||| x, some i⟩)
    (hread : P readReadyEvent) :
    ∀ rounds acc, (∀ e ∈ acc, P e) →
      ∀ e ∈ keventWait files nevents rounds acc, P e := by
  intro rounds
  induction rounds with
  | nil => intro acc hacc; simpa [keventWait] using hacc
  | cons r rest ih =>
    intro acc hacc
    rw [keventWait]
    cases hin : r.inReady with
    | true =>
      simp only [if_pos]
      cases hrr : r.readRes with
      | eintr => exact ih acc hacc
      | ok recs =>
        have hacc' := processRecords_inv P files nevents hP recs acc hacc
        cases hsr : r.stdinReady with
        | true =>
          simp only [if_pos]
          intro e he
          rcases List.mem_append.mp he with he | he
          · exact hacc' e he
          · rwa [List.mem_singleton.mp he]
        | false => simpa using ih _ hacc'
    | false =>
      simp only [Bool.false_eq_true, if_neg, not_false_eq_true]
      cases hsr : r.stdinReady with
      | true =>
        simp only [if_pos]
        intro e he
        rcases List.mem_append.mp he with he | he
        · exact hacc e he
        · rwa [List.mem_singleton.mp he]
      | false => simpa using ih acc hacc

theorem lor_ne_zero_left (a b : Nat) (ha : a ≠ 0) : a ||| b ≠ 0 := by
  intro h
  rcases Nat.eq_zero_or_pos a with h0 | hpos
  · exact ha h0
  · obtain ⟨i, hi⟩ := Nat.exists_most_significant_bit (Nat.pos_iff_ne_zero.mp hpos)
    have hb := congrArg (fun n => n.testBit i) h
    simp [Nat.testBit_lor, hi.1] at hb

theorem processRecords_cons_found (files : List WatchFile) (nevents : Nat)
    (rec : RawRecord) (rest : List RawRecord) (acc : List KEvent) (i : Nat)
    (hcap : acc.length < nevents) (hff : translateMask rec.mask ≠ 0)
    (hfb : file_by_descriptor files rec.wd = some i) :
    processRecords files nevents (rec :: rest) acc =
      processRecords files nevents rest
        ((mergeStep acc rec.wd (translateMask rec.mask)).1 ++
          [⟨rec.wd, KFilter.vnode,
            (mergeStep acc rec.wd (translateMask rec.mask)).2, some i⟩]) := by
  simp [processRecords, Nat.not_le.mpr hcap, hff, hfb]

theorem processRecords_nil (files : List WatchFile) (nevents : Nat)
    (acc : List KEvent) : processRecords files nevents [] acc = acc := by
  rw [processRecords]

/-! ## Claims -/

/-- C3 (amended): for every registry state reachable by registrations,
invalidations and handle replacements, file_by_descriptor returns the first
entry whose stored handle matches the query; under the uniqueness invariant
for valid handles (no earlier entry stores the same handle) this is the
correct LogicalFile for every currently-valid handle, and any handle value
held by no entry — in particular a never-registered handle, or the former
handle of an invalidated entry — yields not-found.  (Looking up the
sentinel -1 itself is NOT not-found when an invalidated entry exists; see
the counterexample.) -/
theorem c3_lookup_finds_valid_handles_and_misses_absent_ones
    (files : List WatchFile) (h : Int) :
    (∀ i f, files.get? i = some f → f.fd = h →
      (∀ j g, j < i → files.get? j = some g → g.fd ≠ h) →
      file_by_descriptor files h = some i) ∧
    ((∀ f ∈ files, f.fd ≠ h) → file_by_descriptor files h = none) :=
  ⟨file_by_descriptor_first files h, file_by_descriptor_none files h⟩

/-- C3 witness: a file registered with handle 4 is found at its index; after
the registry invalidates it (EV_DELETE path stores the sentinel -1), looking
up its former handle 4 is not-found. -/
theorem c3_lookup_witness :
    (([⟨"a.txt", 4⟩] : List WatchFile).get? 0 = some ⟨"a.txt", 4⟩ ∧
      (⟨"a.txt", 4⟩ : WatchFile).fd = 4 ∧
      file_by_descriptor [⟨"a.txt", 4⟩] 4 = some 0) ∧
    ((∀ f ∈ invalidateHandle [⟨"a.txt", 4⟩] 0, f.fd ≠ 4) ∧
      file_by_descriptor (invalidateHandle [⟨"a.txt", 4⟩] 0) 4 = none) :=
  ⟨⟨by decide, by decide,
    (c3_lookup_finds_valid_handles_and_misses_absent_ones [⟨"a.txt", 4⟩] 4).1
      0 ⟨"a.txt", 4⟩ (by decide) (by decide)
      (fun j g hj _ => absurd hj (Nat.not_lt_zero j))⟩,
   ⟨by decide,
    (c3_lookup_finds_valid_handles_and_misses_absent_ones
      (invalidateHandle [⟨"a.txt", 4⟩] 0) 4).2 (by decide)⟩⟩

/-- C3 counterexample: the claim says lookup of the sentinel value stored by
invalidation returns not-found, but after invalidating the only entry the
scan matches its sentinel handle -1 and returns that entry. -/
theorem c3_sentinel_lookup_returns_invalidated_entry :
    file_by_descriptor (invalidateHandle [⟨"a.txt", 4⟩] 0) (-1) = some 0 ∧
    file_by_descriptor (invalidateHandle [⟨"a.txt", 4⟩] 0) (-1) ≠ none := by
  constructor <;> decide

/-- C4: two consecutive raw records for the same watch identifier whose
masks translate to flag sets NOTE_WRITE and NOTE_ATTRIB produce exactly one
VNODE event with the OR of the two flag sets, tagged with the registry entry
found for that watch identifier. -/
theorem c4_consecutive_records_same_wd_merge (files : List WatchFile)
    (nevents : Nat) (w : Int) (m1 m2 : Nat) (i : Nat)
    (h1 : translateMask m1 = NOTE_WRITE) (h2 : translateMask m2 = NOTE_ATTRIB)
    (hf : file_by_descriptor files w = some i) (hn : 2 ≤ nevents) :
    kevent_wait files nevents [⟨true, false, ReadRes.ok [⟨w, m1⟩, ⟨w, m2⟩]⟩] =
      [⟨w, KFilter.vnode, NOTE_WRITE ||| NOTE_ATTRIB, some i⟩] := by
  have hstep : kevent_wait files nevents
      [⟨true, false, ReadRes.ok [⟨w, m1⟩, ⟨w, m2⟩]⟩] =
      processRecords files nevents [⟨w, m1⟩, ⟨w, m2⟩] [] := by
    simp [kevent_wait, keventWait]
  rw [hstep,
    processRecords_cons_found files nevents ⟨w, m1⟩ [⟨w, m2⟩] [] i
      (by simp; omega) (by rw [h1]; decide) hf,
    mergeStep_eq_none [] w (translateMask m1) rfl]
  rw [processRecords_cons_found files nevents ⟨w, m2⟩ [] _ i
      (by simp; omega) (by rw [h2]; decide) hf,
    mergeStep_eq_some _ w (translateMask m2)
      ⟨w, KFilter.vnode, translateMask m1, some i⟩ (by simp),
    if_pos (by simp)]
  rw [processRecords_nil]
  simp [h1, h2]
  decide

/-- C4 witness: a concrete batch of an IN_CLOSE_WRITE record followed by an
IN_ATTRIB record for watch descriptor 3 yields the single merged event. -/
theorem c4_merge_witness :
    (translateMask IN_CLOSE_WRITE = NOTE_WRITE ∧
      translateMask IN_ATTRIB = NOTE_ATTRIB ∧
      file_by_descriptor [⟨"a.txt", 3⟩] 3 = some 0) ∧
    kevent_wait [⟨"a.txt", 3⟩] 32
        [⟨true, false, ReadRes.ok [⟨3, IN_CLOSE_WRITE⟩, ⟨3, IN_ATTRIB⟩]⟩] =
      [⟨3, KFilter.vnode, NOTE_WRITE ||| NOTE_ATTRIB, some 0⟩] :=
  ⟨⟨by decide, by decide, by decide⟩,
   c4_consecutive_records_same_wd_merge [⟨"a.txt", 3⟩] 32 3 IN_CLOSE_WRITE
     IN_ATTRIB 0 (by decide) (by decide) (by decide) (by omega)⟩

/-- C7 (amended): a raw record whose translated flag set is empty yields no
UnifiedEvent, so no VNODE event in the returned batch ever carries an empty
flag bitset.  (The READ_READY event for the secondary input stream does
carry an empty bitset; see the counterexample to the claim's unrestricted
wording.) -/
theorem c7_no_vnode_event_with_empty_flags (files : List WatchFile)
    (nevents : Nat) (rounds : List Round) :
    ∀ e ∈ kevent_wait files nevents rounds,
      e.filter = KFilter.vnode → e.fflags ≠ 0 := by
  refine keventWait_inv _ files nevents ?_ ?_ rounds [] (by simp)
  · intro wd mask x i hff _ _
    exact lor_ne_zero_left _ _ hff
  · intro hc
    simp [readReadyEvent] at hc

/-- C7 witness: a record translating to NOTE_WRITE is surfaced with its
nonzero flag set. -/
theorem c7_nonzero_flags_witness :
    (⟨3, KFilter.vnode, NOTE_WRITE, some 0⟩ : KEvent) ∈
      kevent_wait [⟨"a.txt", 3⟩] 32
        [⟨true, false, ReadRes.ok [⟨3, IN_CLOSE_WRITE⟩]⟩] ∧
    (⟨3, KFilter.vnode, NOTE_WRITE, some 0⟩ : KEvent).fflags ≠ 0 :=
  ⟨by decide,
   c7_no_vnode_event_with_empty_flags [⟨"a.txt", 3⟩] 32
     [⟨true, false, ReadRes.ok [⟨3, IN_CLOSE_WRITE⟩]⟩]
     ⟨3, KFilter.vnode, NOTE_WRITE, some 0⟩ (by decide) rfl⟩

/-- C7 counterexample: the claim's unrestricted wording — no event with an
empty flag bitset ever appears in the returned event list — is false: when
the secondary input stream is ready the returned batch contains the
READ_READY event, whose flag bitset is empty. -/
theorem c7_read_ready_event_has_empty_flags :
    readReadyEvent ∈ kevent_wait [] 32 [⟨false, true, ReadRes.ok []⟩] ∧
    readReadyEvent.fflags = 0 := by
  constructor <;> decide

/-- C8: when the secondary input stream is ready in a poll round whose read
was not interrupted, exactly one READ_READY event with a null tag is
appended after the events collected so far, and the remaining poll rounds
are never consulted (the batch is short-circuited). -/
theorem c8_stdin_ready_appends_one_event_and_stops (files : List WatchFile)
    (nevents : Nat) (recs : List RawRecord) (rest : List Round)
    (acc : List KEvent) (inR : Bool) :
    keventWait files nevents (⟨inR, true, ReadRes.ok recs⟩ :: rest) acc =
      (if inR then processRecords files nevents recs acc else acc) ++
        [readReadyEvent] ∧
    readReadyEvent.filter = KFilter.read ∧ readReadyEvent.udata = none := by
  refine ⟨?_, rfl, rfl⟩
  cases inR <;> simp [keventWait]

/-- C9: a read of the notification channel interrupted by a transient
signal (EINTR) is retried — the wait continues with the next poll round
exactly as if the interrupted read had not happened, and no failure is
surfaced for it. -/
theorem c9_eintr_read_is_retried_not_surfaced (files : List WatchFile)
    (nevents : Nat) (sIn : Bool) (rest : List Round) (acc : List KEvent) :
    keventWait files nevents (⟨true, sIn, ReadRes.eintr⟩ :: rest) acc =
      keventWait files nevents rest acc := by
  simp [keventWait]

/-- C10: every VNODE event the wait path returns is tagged with a registry
entry whose stored native handle equals the event's watch identifier
(records whose lookup fails are dropped), and only READ_READY events carry
a null tag. -/
theorem c10_vnode_events_are_correctly_tagged (files : List WatchFile)
    (nevents : Nat) (rounds : List Round) :
    ∀ e ∈ kevent_wait files nevents rounds,
      (e.filter = KFilter.vnode →
        ∃ i f, e.udata = some i ∧ files.get? i = some f ∧ f.fd = e.ident) ∧
      (e.udata = none → e.filter = KFilter.read) := by
  refine keventWait_inv _ files nevents ?_ ?_ rounds [] (by simp)
  · intro wd mask x i hff hfb
    obtain ⟨f, hf, hfd⟩ := file_by_descriptor_some files wd i hfb
    exact ⟨fun _ => ⟨i, f, rfl, hf, hfd⟩, fun hc => by simp at hc⟩
  · exact ⟨fun hc => by simp [readReadyEvent] at hc, fun _ => rfl⟩

/-! ## Helper lemmas for the dispatch loop and watch_file -/

theorem openResult_succ (opens : Nat → Int) (idx fuel : Nat) :
    openResult opens idx (fuel + 1) =
      if opens idx = -1 then openResult opens (idx + 1) fuel else opens idx := by
  rw [openResult]

theorem openUsed_succ (opens : Nat → Int) (idx fuel : Nat) :
    openUsed opens idx (fuel + 1) =
      if opens idx = -1 then openUsed opens (idx + 1) fuel + 1 else 1 := by
  rw [openUsed]

theorem openTrace_succ (opens : Nat → Int) (idx fuel : Nat) :
    openTrace opens idx (fuel + 1) =
      if opens idx = -1 then
        WItem.attempted (opens idx) :: WItem.sleptUs 100000 ::
          openTrace opens (idx + 1) fuel
      else [WItem.attempted (opens idx)] := by
  rw [openTrace]

theorem countAttempts_openTrace_le (opens : Nat → Int) :
    ∀ fuel idx, countAttempts (openTrace opens idx fuel) ≤ fuel := by
  intro fuel
  induction fuel with
  | zero => intro idx; simp [openTrace, countAttempts]
  | succ fuel ih =>
    intro idx
    rw [openTrace_succ]
    by_cases hf : opens idx = -1
    · rw [if_pos hf]
      have := ih (idx + 1)
      simp [countAttempts, List.countP_cons] at this ⊢
      omega
    · rw [if_neg hf]
      simp [countAttempts, List.countP_cons]

theorem wellSpaced_openTrace (opens : Nat → Int) :
    ∀ fuel idx, wellSpaced (openTrace opens idx fuel) = true := by
  intro fuel
  induction fuel with
  | zero => intro idx; rw [openTrace]; rfl
  | succ fuel ih =>
    intro idx
    rw [openTrace_succ]
    by_cases hf : opens idx = -1
    · rw [if_pos hf, wellSpaced]
      exact ih (idx + 1)
    · rw [if_neg hf, wellSpaced]

theorem openTrace_first_success (opens : Nat → Int) :
    ∀ k idx fuel, k < fuel → (∀ j, j < k → opens (idx + j) = -1) →
      opens (idx + k) ≠ -1 →
      countAttempts (openTrace opens idx fuel) = k + 1 ∧
      openResult opens idx fuel = opens (idx + k) := by
  intro k
  induction k with
  | zero =>
    intro idx fuel hk _ hs
    obtain ⟨fuel, rfl⟩ := Nat.exists_eq_succ_of_ne_zero (Nat.pos_iff_ne_zero.mp hk)
    rw [Nat.add_zero] at hs
    rw [openTrace_succ, if_neg hs, openResult_succ, if_neg hs]
    exact ⟨by simp [countAttempts], by rw [Nat.add_zero]⟩
  | succ k ih =>
    intro idx fuel hk hbef hs
    obtain ⟨fuel, rfl⟩ := Nat.exists_eq_succ_of_ne_zero
      (Nat.pos_iff_ne_zero.mp (Nat.lt_of_le_of_lt (Nat.zero_le _) hk))
    have hf : opens idx = -1 := by simpa using hbef 0 (Nat.succ_pos k)
    have hbef' : ∀ j, j < k → opens (idx + 1 + j) = -1 := fun j hj => by
      have := hbef (j + 1) (Nat.succ_lt_succ hj)
      rwa [show idx + (j + 1) = idx + 1 + j by omega] at this
    have hs' : opens (idx + 1 + k) ≠ -1 := by
      rwa [show idx + 1 + k = idx + (k + 1) by omega]
    obtain ⟨hcount, hres⟩ := ih (idx + 1) fuel (Nat.lt_of_succ_lt_succ hk) hbef' hs'
    rw [openTrace_succ, if_pos hf, openResult_succ, if_pos hf]
    constructor
    · simp [countAttempts, List.countP_cons] at hcount ⊢
      omega
    · rw [hres, show idx + 1 + k = idx + (k + 1) by omega]

theorem openResult_all_fail (opens : Nat → Int) :
    ∀ fuel idx, (∀ j, j < fuel → opens (idx + j) = -1) →
      openResult opens idx fuel = -1 := by
  intro fuel
  induction fuel with
  | zero => intro idx _; rw [openResult]
  | succ fuel ih =>
    intro idx hall
    have hf : opens idx = -1 := by simpa using hall 0 (Nat.succ_pos fuel)
    rw [openResult_succ, if_pos hf]
    exact ih (idx + 1) (fun j hj => by
      have := hall (j + 1) (Nat.succ_lt_succ hj)
      rwa [show idx + (j + 1) = idx + 1 + j by omega] at this)

theorem popDrain_files (w : World) : (popDrain w).2.files = w.files := by
  unfold popDrain
  cases w.drains <;> rfl

/-- Reduction of the loop body for a command-mode event without NOTE_DELETE
when no drained events are pending. -/
theorem processEvent_cmd_no_delete (w : World) (ev : KEvent)
    (hD : ev.fflags &&& NOTE_DELETE = 0) (hdr : w.drains = []) :
    processEvent 0 w ev =
      if qualifies ev.fflags then
        Except.ok ([EAction.runScript, EAction.drainCall], w, some [])
      else Except.ok ([], w, none) := by
  by_cases hq : qualifies ev.fflags <;>
    simp [processEvent, popDrain, hD, hdr, hq]

theorem countP_take_drop_step (l : List KEvent) (p : KEvent → Bool)
    (hp : p dummyEv = false) (i fuel : Nat) :
    ((l.drop i).take (fuel + 1)).countP p =
      (if p (l.getD i dummyEv) then 1 else 0) +
        ((l.drop (i + 1)).take fuel).countP p := by
  rcases Nat.lt_or_ge i l.length with hlt | hge
  · rw [List.drop_eq_getElem_cons hlt, List.take_succ_cons, List.countP_cons,
      List.getD_eq_getElem l dummyEv hlt]
    omega
  · rw [List.drop_eq_nil_of_le hge,
      List.drop_eq_nil_of_le (Nat.le_trans hge (Nat.le_succ i)),
      List.getD_eq_default l dummyEv hge, hp]
    simp

/-- Command-mode dispatch over a batch without NOTE_DELETE events and with
no pending drain results: the pass succeeds, leaves the world unchanged,
and runs the script once per qualifying event position. -/
theorem dispatchAux_cmd_no_delete (evList : List KEvent)
    (hD : ∀ j, (evList.getD j dummyEv).fflags &&& NOTE_DELETE = 0) :
    ∀ fuel i (w : World), w.drains = [] →
      ∃ acts, dispatchAux 0 fuel i evList w = Except.ok (acts, w) ∧
        countRunScript acts =
          ((evList.drop i).take fuel).countP (fun e => qualifies e.fflags) := by
  intro fuel
  induction fuel with
  | zero =>
    intro i w _
    exact ⟨[], rfl, by simp [countRunScript]⟩
  | succ fuel ih =>
    intro i w hw
    obtain ⟨acts2, h2, hc2⟩ := ih (i + 1) w hw
    have hstep : dispatchAux 0 (fuel + 1) i evList w =
        match processEvent 0 w (evList.getD i dummyEv) with
        | Except.error e => Except.error e
        | Except.ok (acts, w', dOpt) =>
          let evList' :=
            match dOpt with
            | none => evList
            | some d => overwriteFront evList d
          match dispatchAux 0 fuel (i + 1) evList' w' with
          | Except.error e => Except.error e
          | Except.ok (acts2, w2) => Except.ok (acts ++ acts2, w2) := rfl
    have hpe := processEvent_cmd_no_delete w (evList.getD i dummyEv) (hD i) hw
    have hcnt := countP_take_drop_step evList (fun e => qualifies e.fflags)
      (by decide) i fuel
    by_cases hq : qualifies (evList.getD i dummyEv).fflags
    · rw [if_pos hq] at hpe
      refine ⟨[EAction.runScript, EAction.drainCall] ++ acts2, ?_, ?_⟩
      · rw [hstep, hpe]
        show (match dispatchAux 0 fuel (i + 1) (overwriteFront evList []) w with
          | Except.error e => Except.error e
          | Except.ok (acts2, w2) =>
            Except.ok ([EAction.runScript, EAction.drainCall] ++ acts2, w2)) = _
        rw [show overwriteFront evList [] = evList from rfl, h2]
      · rw [hcnt, if_pos hq]
        simp [countRunScript, List.countP_append, List.countP_cons] at hc2 ⊢
        omega
    · rw [if_neg hq] at hpe
      refine ⟨acts2, ?_, ?_⟩
      · rw [hstep, hpe]
        show (match dispatchAux 0 fuel (i + 1) evList w with
          | Except.error e => Except.error e
          | Except.ok (acts2, w2) => Except.ok ([] ++ acts2, w2)) = _
        rw [h2]
        simp
      · rw [hcnt, if_neg hq, hc2]
        omega

/-! ## Claims about entr.c -/

/-- C1 (amended): in command mode, with no NOTE_DELETE events in the batch
and the post-invocation drain calls returning no events, one dispatch pass
invokes the command once per qualifying event of the batch — not once per
batch — issuing the near-zero-timeout drain call after each invocation. -/
theorem c1_command_invoked_once_per_qualifying_event (evList : List KEvent)
    (w : World) (hD : ∀ e ∈ evList, e.fflags &&& NOTE_DELETE = 0)
    (hdr : w.drains = []) :
    countRunScript (actionsOf (dispatchBatch 0 evList w)) =
      evList.countP (fun e => qualifies e.fflags) := by
  have hD' : ∀ j, (evList.getD j dummyEv).fflags &&& NOTE_DELETE = 0 := by
    intro j
    rcases hgj : evList.get? j with _ | e
    · rw [List.getD_eq_default _ _ (List.get?_eq_none.mp hgj)]; decide
    · rw [List.getD_eq_getD_get?, hgj]
      exact hD e (List.get?_mem hgj)
  obtain ⟨acts, h, hc⟩ :=
    dispatchAux_cmd_no_delete evList hD' evList.length 0 w hdr
  unfold dispatchBatch
  rw [h]
  show countRunScript acts = _
  rw [hc]
  simp

/-- C1 witness: the amended statement evaluated on a three-WRITE-event
batch. -/
theorem c1_once_per_event_witness :
    (∀ e ∈ batch3, e.fflags &&& NOTE_DELETE = 0) ∧
    countRunScript (actionsOf (dispatchBatch 0 batch3 world3)) =
      batch3.countP (fun e => qualifies e.fflags) :=
  ⟨by decide, c1_command_invoked_once_per_qualifying_event batch3 world3
    (by decide) rfl⟩

/-- C1 counterexample: a dispatch batch of 3 qualifying (NOTE_WRITE) events
for 3 different files yields 3 command invocations, not 1: the drain call
issued after run_script clears only the kernel queue, while the remaining
events of the already-fetched batch each re-trigger the command. -/
theorem c1_three_qualifying_events_three_invocations :
    countRunScript (actionsOf (dispatchBatch 0 batch3 world3)) = 3 ∧
    countRunScript (actionsOf (dispatchBatch 0 batch3 world3)) ≠ 1 := by
  constructor <;> decide

/-- C2 (code evaluated at the failing input): in FIFO mode every qualifying
event of the batch produces a write of the path followed by a two-byte
write of newline-then-NUL (bytes 10, 0) and an fsync, and the command is
never invoked.  The claim (and the spec) promise a single newline byte and
nothing else; the second write's stray NUL byte comes from
write(fifo.fd, a one-character string literal, 2) in entr.c line 244, which
sends the literal's terminating NUL as well. -/
theorem c2_fifo_writes_include_stray_nul_byte :
    actionsOf (dispatchBatch 7 batch3 world3) =
      [EAction.fifoWrote (fifoBytesPath "a.txt"), EAction.fifoWrote [10, 0],
       EAction.fsyncFifo,
       EAction.fifoWrote (fifoBytesPath "b.txt"), EAction.fifoWrote [10, 0],
       EAction.fsyncFifo,
       EAction.fifoWrote (fifoBytesPath "c.txt"), EAction.fifoWrote [10, 0],
       EAction.fsyncFifo] ∧
    countRunScript (actionsOf (dispatchBatch 7 batch3 world3)) = 0 ∧
    fifoNewlineWrite = [10, 0] := by
  refine ⟨?_, ?_, rfl⟩ <;> decide

/-- C5 (amended): an event with NOTE_DELETE set makes the dispatch loop
close the stale descriptor and re-register the file exactly once, storing
the handle obtained from the re-open — which may or may not differ from the
old value — and both happen before the delivery actions for that same
event. -/
theorem c5_delete_closes_and_reregisters_once_before_delivery
    (fifoFd : Nat) (w : World) (ev : KEvent) (fi : Nat) (f : WatchFile)
    (hD : ev.fflags &&& NOTE_DELETE ≠ 0)
    (hu : ev.udata = some fi) (hf : w.files.get? fi = some f)
    (hopen : w.opens w.openIdx ≠ -1) :
    ∃ w' dOpt,
      processEvent fifoFd w ev =
        Except.ok ([EAction.closedFd f.fd,
            EAction.reRegistered (w.opens w.openIdx)] ++
          (if fifoFd = 0 then [EAction.runScript, EAction.drainCall]
           else [EAction.fifoWrote (fifoBytesPath f.fn),
             EAction.fifoWrote fifoNewlineWrite, EAction.fsyncFifo]),
          w', dOpt) ∧
      w'.files = setHandle w.files fi (w.opens w.openIdx) := by
  have hres : openResult w.opens w.openIdx 20 = w.opens w.openIdx := by
    rw [show (20 : Nat) = 19 + 1 from rfl, openResult_succ, if_neg hopen]
  have hused : openUsed w.opens w.openIdx 20 = 1 := by
    rw [show (20 : Nat) = 19 + 1 from rfl, openUsed_succ, if_neg hopen]
  have hq : qualifies ev.fflags = true := by
    simp [qualifies, hD]
  have hDb : (ev.fflags &&& NOTE_DELETE != 0) = true := by
    simpa using hD
  have hf' : w.files[fi]? = some f := by
    rw [← List.get?_eq_getElem?]
    exact hf
  by_cases h0 : fifoFd = 0
  · subst h0
    rcases hpd : popDrain ⟨setHandle w.files fi (w.opens w.openIdx), w.opens,
        w.openIdx + 1, w.errno, w.drains⟩ with ⟨d, w2⟩
    refine ⟨w2, some d, ?_, ?_⟩
    · simp only [processEvent, hu, hf]
      simp [hres, hused, hq, hopen, hDb, hpd, hf']
    · have hwf := popDrain_files ⟨setHandle w.files fi (w.opens w.openIdx),
        w.opens, w.openIdx + 1, w.errno, w.drains⟩
      rw [hpd] at hwf
      exact hwf
  · refine ⟨⟨setHandle w.files fi (w.opens w.openIdx), w.opens,
      w.openIdx + 1, w.errno, w.drains⟩, none, ?_, rfl⟩
    simp only [processEvent, hu, hf]
    simp [hres, hused, hq, hopen, hDb, h0, hf']

/-- C5 witness: the amended statement evaluated where the re-open returns a
fresh descriptor 9 for a file previously registered with descriptor 5. -/
theorem c5_delete_witness :
    (evDelete.fflags &&& NOTE_DELETE ≠ 0) ∧
    (∃ w' dOpt,
      processEvent 0 worldNewFd evDelete =
        Except.ok ([EAction.closedFd 5, EAction.reRegistered 9] ++
          [EAction.runScript, EAction.drainCall], w', dOpt) ∧
      w'.files = setHandle [⟨"a.txt", 5⟩] 0 9) :=
  ⟨by decide,
   c5_delete_closes_and_reregisters_once_before_delivery 0 worldNewFd
     evDelete 0 ⟨"a.txt", 5⟩ (by decide) rfl rfl (by decide)⟩

/-- C5 counterexample: the claim requires the nativeHandle to change to a
new value, but when the re-open returns the same numeric descriptor — as
POSIX open(2) does after the lowest-numbered descriptor was just closed —
the registry entry keeps the value 5 it had before the DELETE, even though
the close and the re-registration did happen. -/
theorem c5_reopen_may_return_same_handle :
    peActs (processEvent 0 worldSameFd evDelete) =
      [EAction.closedFd 5, EAction.reRegistered 5, EAction.runScript,
        EAction.drainCall] ∧
    peFiles (processEvent 0 worldSameFd evDelete) = [⟨"a.txt", 5⟩] := by
  constructor <;> decide

/-- C6 (amended): watch_file makes at most 20 open attempts with a
100000-microsecond sleep between consecutive attempts, stops at the first
success (k failures before the first success give exactly k+1 attempts and
that descriptor as result), and when every attempt fails it terminates the
process abruptly via err with exit status errno — not necessarily 1 — and a
diagnostic naming the offending path. -/
theorem c6_watch_file_retry_and_failure (opens : Nat → Int) (errnoVal : Nat)
    (fn : String) :
    countAttempts (openTrace opens 0 20) ≤ 20 ∧
    wellSpaced (openTrace opens 0 20) = true ∧
    (∀ k, k < 20 → (∀ j, j < k → opens j = -1) → opens k ≠ -1 →
      countAttempts (openTrace opens 0 20) = k + 1 ∧
      watch_file opens 0 errnoVal fn = Except.ok (opens k)) ∧
    ((∀ j, j < 20 → opens j = -1) →
      watch_file opens 0 errnoVal fn =
        Except.error ⟨errnoVal, "cannot open " ++ fn⟩) := by
  refine ⟨countAttempts_openTrace_le opens 20 0,
    wellSpaced_openTrace opens 20 0, ?_, ?_⟩
  · intro k hk hbef hs
    obtain ⟨hcount, hres⟩ := openTrace_first_success opens k 0 20 hk
      (fun j hj => by simpa using hbef j hj) (by simpa using hs)
    refine ⟨hcount, ?_⟩
    rw [watch_file, hres, if_neg (by simpa using hs)]
    simp
  · intro hall
    rw [watch_file,
      openResult_all_fail opens 20 0 (fun j hj => by simpa using hall j hj),
      if_pos rfl]

/-- C6 witness: with the first three opens failing and the fourth
succeeding with descriptor 9, exactly 4 attempts are made and watch_file
returns descriptor 9. -/
theorem c6_retry_witness :
    ((3 : Nat) < 20 ∧ (fun j => if j < 3 then (-1 : Int) else 9) 3 ≠ -1) ∧
    countAttempts
      (openTrace (fun j => if j < 3 then (-1 : Int) else 9) 0 20) = 4 ∧
    watch_file (fun j => if j < 3 then (-1 : Int) else 9) 0 2 "a.txt" =
      Except.ok 9 := by
  have h := (c6_watch_file_retry_and_failure
      (fun j => if j < 3 then (-1 : Int) else 9) 2 "a.txt").2.2.1 3
    (by omega) (fun j hj => by interval_cases j <;> decide) (by decide)
  exact ⟨⟨by omega, by decide⟩, h.1, h.2⟩

/-- C6 counterexample: when every open fails with errno ENOENT (2), the
process exits with status 2, not 1, because entr.c line 193 calls
err(errno, ...) rather than err(1, ...). -/
theorem c6_exit_code_is_errno_not_one :
    watch_file (fun _ => -1) 0 2 "a.txt" =
      Except.error ⟨2, "cannot open a.txt"⟩ ∧
    (2 : Nat) ≠ 1 :=
  ⟨rfl, by decide⟩

/-- C10 witness: the event produced for a watched descriptor carries the
registry entry holding that descriptor. -/
theorem c10_tagged_witness :
    (⟨3, KFilter.vnode, NOTE_WRITE, some 0⟩ : KEvent) ∈
      kevent_wait [⟨"a.txt", 3⟩] 32
        [⟨true, false, ReadRes.ok [⟨3, IN_CLOSE_WRITE⟩]⟩] ∧
    (∃ i f, (some 0 : Option Nat) = some i ∧
      ([⟨"a.txt", 3⟩] : List WatchFile).get? i = some f ∧ f.fd = 3) :=
  ⟨by decide,
   (c10_vnode_events_are_correctly_tagged [⟨"a.txt", 3⟩] 32
     [⟨true, false, ReadRes.ok [⟨3, IN_CLOSE_WRITE⟩]⟩]
     ⟨3, KFilter.vnode, NOTE_WRITE, some 0⟩ (by decide)).1 rfl⟩

end Entr
